import Mathlib

/-!
Shallow embedding of the schedule-recommender core in `src/main.py`.

Conventions used throughout:
* Python strings are Lean `String`s; the parser works on their `List Char`.
* `datetime.time` values are minutes after midnight (`Nat`); this is
  order-isomorphic to the source's time objects for the comparisons used.
* pandas missing values (`NaN` / `pd.NA`) of numeric fields are `Option ℚ`
  with `none` for "absent"; real numbers are modelled as `ℚ`.
* A Python function that can raise an exception is modelled as returning
  `Option _`, with `none` meaning "an exception propagates to the caller".
* The regex character class `\d` is modelled as the ASCII digits `0`-`9`
  (the only digits the data format produces).
-/

namespace AutoClass

/-- The source's `day_map`: Korean day abbreviation to day-of-week index. -/
def dayIdx? (c : Char) : Option Nat :=
  if c = '월' then some 0
  else if c = '화' then some 1
  else if c = '수' then some 2
  else if c = '목' then some 3
  else if c = '금' then some 4
  else if c = '토' then some 5
  else if c = '일' then some 6
  else none

/-- Value of an ASCII digit character, `none` on anything else. -/
def digitVal? (c : Char) : Option Nat :=
  if '0' ≤ c ∧ c ≤ '9' then some (c.toNat - '0'.toNat) else none

/-- One match of the token regex
`(월|화|수|목|금|토|일) \[[^\]]+\] (\d2:\d2)~(\d2:\d2)` before any time
validation: the day index and the four two-digit numbers `HH`, `MM` of the
two times. -/
structure Tok where
  day : Nat
  sh : Nat
  sm : Nat
  eh : Nat
  em : Nat
deriving DecidableEq, Repr

/-- Matches the trailing `HH:MM~HH:MM` part of the token regex at the head
of the character list; returns the token and the remaining characters. -/
def timeTail? (day : Nat) : List Char → Option (Tok × List Char)
  | a :: b :: ':' :: c :: d :: '~' :: e :: f :: ':' :: g :: h :: rest =>
    match digitVal? a, digitVal? b, digitVal? c, digitVal? d,
          digitVal? e, digitVal? f, digitVal? g, digitVal? h with
    | some x1, some x2, some x3, some x4, some x5, some x6, some x7, some x8 =>
      some (⟨day, 10 * x1 + x2, 10 * x3 + x4, 10 * x5 + x6, 10 * x7 + x8⟩, rest)
    | _, _, _, _, _, _, _, _ => none
  | _ => none

/-- Tries to match the whole token regex at the head of the list: a day
abbreviation, a space, `[`, one or more non-`]` characters, `]`, a space,
then `HH:MM~HH:MM`.  The bracket part `[^\]]+` is matched greedily; since
its class excludes `]` no backtracking can occur, so this single greedy
attempt is exactly the regex semantics. -/
def tryMatch (l : List Char) : Option (Tok × List Char) :=
  match l with
  | d :: ' ' :: '[' :: rest =>
    match dayIdx? d with
    | none => none
    | some day =>
      let loc := rest.takeWhile fun c => c ≠ ']'
      if loc.isEmpty then none
      else
        match rest.drop loc.length with
        | ']' :: ' ' :: tail => timeTail? day tail
        | _ => none
  | _ => none

/-- Left-to-right scan of `re.findall`: at each position try to match the
token pattern; on a match emit the token and continue after it, otherwise
advance one character.  The fuel argument only serves structural
termination; every step consumes at least one character while spending one
unit of fuel, so fuel equal to the length of the list (as supplied by
`findTokens`) is never exhausted before the list is. -/
def findTokensAux : Nat → List Char → List Tok
  | 0, _ => []
  | _ + 1, [] => []
  | fuel + 1, c :: rest =>
    match tryMatch (c :: rest) with
    | some (t, rem) => t :: findTokensAux fuel rem
    | none => findTokensAux fuel rest

/-- All non-overlapping leftmost matches of the token regex, in order:
the source's `re.findall(pattern, time_field)`. -/
def findTokens (l : List Char) : List Tok :=
  findTokensAux l.length l

/-- The source's `parse_time_str` via `datetime.strptime(_, "%H:%M")` on a
two-digit/two-digit token: succeeds exactly when the hour is `0..23` and
the minute `0..59`, returning minutes after midnight; otherwise `strptime`
raises `ValueError`, modelled as `none`. -/
def parse_time_str (h m : Nat) : Option Nat :=
  if h ≤ 23 ∧ m ≤ 59 then some (60 * h + m) else none

/-- A normalized meeting slot `(day, start, end)` with times in minutes. -/
structure Session where
  day : Nat
  tstart : Nat
  tend : Nat
deriving DecidableEq, Repr

/-- Builds the Session of one matched token, parsing first the start and
then the end time; `none` when either time is out of range (the
`ValueError` of `parse_time_str`). -/
def tokSession (t : Tok) : Option Session :=
  match parse_time_str t.sh t.sm with
  | none => none
  | some s =>
    match parse_time_str t.eh t.em with
    | none => none
    | some e => some ⟨t.day, s, e⟩

/-- The session-building loop of `extract_sessions`: converts the matched
tokens in order, propagating the first time-parse exception. -/
def sessionsOfToks : List Tok → Option (List Session)
  | [] => some []
  | t :: ts =>
    match tokSession t with
    | none => none
    | some s =>
      match sessionsOfToks ts with
      | none => none
      | some ss => some (s :: ss)

/-- The source's `extract_sessions`: find all regex matches in the string
and convert each to a Session; `none` models the `ValueError` raised by
`parse_time_str` on an out-of-range matched time. -/
def extract_sessions (s : String) : Option (List Session) :=
  sessionsOfToks (findTokens s.data)

/-- Whether two single sessions overlap: same day and
`max(start, start) < min(end, end)`, as in the inner test of
`is_conflict`. -/
def overlapping (a b : Session) : Bool :=
  a.day == b.day && decide (max a.tstart b.tstart < min a.tend b.tend)

/-- The source's `is_conflict`: the double loop returns `True` as soon as
some pair of sessions overlaps, `False` when the loops finish. -/
def is_conflict (A B : List Session) : Bool :=
  A.any fun a => B.any fun b => overlapping a b

/-- The source's `bayesian_average`: the global mean when the rating is
absent or zero or the review count is absent, otherwise the shrinkage
blend `n/(n+k)*r + k/(n+k)*m`.  All call sites pass the default `k = 10`. -/
def bayesian_average (rating n : Option ℚ) (global_mean : ℚ) (k : ℚ) : ℚ :=
  match rating, n with
  | none, _ => global_mean
  | some _, none => global_mean
  | some r, some nv =>
    if r = 0 then global_mean
    else nv / (nv + k) * r + k / (nv + k) * global_mean

/-- A matched token has in-range times: both hours `0..23`, both minutes
`0..59`.  Exactly the tokens `parse_time_str` accepts. -/
def validTok (t : Tok) : Prop :=
  t.sh ≤ 23 ∧ t.sm ≤ 59 ∧ t.eh ≤ 23 ∧ t.em ≤ 59

instance (t : Tok) : Decidable (validTok t) :=
  inferInstanceAs (Decidable (t.sh ≤ 23 ∧ t.sm ≤ 59 ∧ t.eh ≤ 23 ∧ t.em ≤ 59))

/-- The Session a valid token denotes, with times in minutes. -/
def sessionOfValid (t : Tok) : Session :=
  ⟨t.day, 60 * t.sh + t.sm, 60 * t.eh + t.em⟩

theorem tokSession_eq_some_of_valid {t : Tok} (h : validTok t) :
    tokSession t = some (sessionOfValid t) := by
  obtain ⟨h1, h2, h3, h4⟩ := h
  simp [tokSession, parse_time_str, sessionOfValid, h1, h2, h3, h4]

theorem tokSession_isSome_iff {t : Tok} : (tokSession t).isSome = true ↔ validTok t := by
  unfold tokSession parse_time_str validTok
  by_cases h1 : t.sh ≤ 23 ∧ t.sm ≤ 59 <;> by_cases h2 : t.eh ≤ 23 ∧ t.em ≤ 59 <;>
    simp [h1, h2]

theorem sessionsOfToks_all_valid {ts : List Tok} (h : ∀ t ∈ ts, validTok t) :
    sessionsOfToks ts = some (ts.map sessionOfValid) := by
  induction ts with
  | nil => rfl
  | cons t ts ih =>
    have ht := tokSession_eq_some_of_valid (h t (by simp))
    have htl := ih fun x hx => h x (by simp [hx])
    simp [sessionsOfToks, ht, htl]

theorem sessionsOfToks_isSome_iff {ts : List Tok} :
    (sessionsOfToks ts).isSome = true ↔ ∀ t ∈ ts, validTok t := by
  induction ts with
  | nil => simp [sessionsOfToks]
  | cons t ts ih =>
    cases ht : tokSession t with
    | none =>
      have : ¬ validTok t := by
        rw [← tokSession_isSome_iff, ht]
        simp
      simp [sessionsOfToks, ht, this]
    | some s =>
      have hv : validTok t := by
        rw [← tokSession_isSome_iff, ht]
        rfl
      cases hts : sessionsOfToks ts with
      | none => simp [sessionsOfToks, ht, hts, hv, ← ih]
      | some ss => simp [sessionsOfToks, ht, hts, hv, ← ih]

/-- C2: `is_conflict A B` is true iff some Session of A and some Session of
B share a day and their time ranges intersect with positive duration
(`max` of starts strictly below `min` of ends); hence sessions on distinct
days, or sessions merely touching at an endpoint, never conflict. -/
theorem C2_is_conflict_iff (A B : List Session) :
    is_conflict A B = true ↔
      ∃ a ∈ A, ∃ b ∈ B, a.day = b.day ∧ max a.tstart b.tstart < min a.tend b.tend := by
  simp [is_conflict, overlapping, List.any_eq_true, Bool.and_eq_true, beq_iff_eq,
    decide_eq_true_eq]

/-- C3: with shrinkage constant k = 10, `bayesian_average` returns the
global mean when the rating is absent, zero, or the review count is
absent, and otherwise the blend `n/(n+10)*r + 10/(n+10)*m`. -/
theorem C3_bayesian_average_spec (rating n : Option ℚ) (m : ℚ) :
    ((rating = none ∨ rating = some 0 ∨ n = none) → bayesian_average rating n m 10 = m) ∧
    (∀ r nv, rating = some r → r ≠ 0 → n = some nv →
      bayesian_average rating n m 10 = nv / (nv + 10) * r + 10 / (nv + 10) * m) := by
  constructor
  · rintro (rfl | rfl | rfl)
    · cases n <;> rfl
    · cases n <;> simp [bayesian_average]
    · cases rating <;> simp [bayesian_average]
  · rintro r nv rfl hr rfl
    simp [bayesian_average, hr]

theorem C3_witness :
    bayesian_average (some 4) (some 40) 3 10 = 40 / (40 + 10) * 4 + 10 / (40 + 10) * 3 :=
  (C3_bayesian_average_spec (some 4) (some 40) 3).2 4 40 rfl (by norm_num) rfl

/-- Input on which the claimed totality of the parser fails: the token
matches the regex but its hour fields 25 and 26 are out of range, so
`parse_time_str` (the source's `datetime.strptime`) raises instead of the
token being dropped. -/
def c6FailInput : String := "월 [loc] 25:00~26:00"

/-- C6 counterexample: on `"월 [loc] 25:00~26:00"` the token pattern does
match (yielding the raw token with hours 25 and 26), and `extract_sessions`
fails (`none` models the `ValueError` of `strptime`) instead of dropping
the out-of-range token — so the parser is not total as claimed. -/
theorem C6_counterexample :
    findTokens c6FailInput.data = [⟨0, 25, 0, 26, 0⟩] ∧
    extract_sessions c6FailInput = none := by
  constructor <;> rfl

/-- C6 amended: `extract_sessions` succeeds iff every substring matching
the token pattern carries in-range times (hours 0–23, minutes 0–59);
non-matching text is ignored, but a matched token with an out-of-range
time makes the parser fail rather than being dropped. -/
theorem C6_amended_parser_total_iff (s : String) :
    (extract_sessions s).isSome = true ↔ ∀ t ∈ findTokens s.data, validTok t := by
  unfold extract_sessions
  exact sessionsOfToks_isSome_iff

/-- Input falsifying the original C8: it contains exactly one well-formed
token (the 화 one; the 월 token matches the regex but its hours 25 and 26
are out of range), yet the parser fails on the out-of-range match and
yields zero Sessions instead of one. -/
def c8FailInput : String := "월 [a] 25:00~26:00 화 [b] 09:00~10:00"

/-- C8 counterexample: on `"월 [a] 25:00~26:00 화 [b] 09:00~10:00"` the
scan finds two matching tokens of which exactly the second is well-formed
(in-range times), so the original claim demands exactly one Session; but
`extract_sessions` fails on the out-of-range first match (the `ValueError`
of `strptime`), yielding no Sessions — the out-of-range match does not
merely "contribute zero Sessions", it aborts the whole parse. -/
theorem C8_counterexample :
    findTokens c8FailInput.data = [⟨0, 25, 0, 26, 0⟩, ⟨1, 9, 0, 10, 0⟩] ∧
    ¬ validTok ⟨0, 25, 0, 26, 0⟩ ∧ validTok ⟨1, 9, 0, 10, 0⟩ ∧
    extract_sessions c8FailInput = none := by
  refine ⟨rfl, by decide, by decide, rfl⟩

/-- C8 amended: on every input string whose matched tokens all carry
in-range times, `extract_sessions` yields exactly one Session per matched
token, in token order, each carrying the token's day index and start and
end times; text outside the matched tokens contributes nothing.  (Without
that restriction the statement fails: an out-of-range matching token makes
the parser raise, as `C8_counterexample` shows.) -/
theorem C8_wellformed_tokens (s : String)
    (h : ∀ t ∈ findTokens s.data, validTok t) :
    extract_sessions s = some ((findTokens s.data).map sessionOfValid) ∧
    ((findTokens s.data).map sessionOfValid).length = (findTokens s.data).length := by
  refine ⟨?_, by simp⟩
  unfold extract_sessions
  exact sessionsOfToks_all_valid h

/-- A two-token input for the C8 witness. -/
def c8Input : String := "월 [E301] 09:00~10:30 화 [B102] 11:00~12:00"

theorem C8_witness :
    extract_sessions c8Input = some ((findTokens c8Input.data).map sessionOfValid) ∧
    ((findTokens c8Input.data).map sessionOfValid).length = (findTokens c8Input.data).length :=
  C8_wellformed_tokens c8Input (by decide)

/-- One catalog row (the columns of the source's dataframe used by the
core): category `구분`, subject name `과목명`, subject code `과목코드`,
instructor `교수`, meeting-time string `강의시간`, credit `학점`, raw
rating `강의평` and review count `평가수` (both possibly absent). -/
structure Offering where
  gubun : String
  name : String
  code : String
  prof : String
  timeField : String
  credit : ℚ
  rating : Option ℚ
  nratings : Option ℚ
deriving DecidableEq, Repr

/-- The `bayes` score column of one row, as computed in `select_offering`
and in the general phase of `build_schedule` (default `k = 10`). -/
def bayesOf (gm : ℚ) (o : Offering) : ℚ :=
  bayesian_average o.rating o.nratings gm 10

/-- Row `a` precedes (or ties) row `b` in the descending score order. -/
def scoreGE (gm : ℚ) (a b : Offering) : Prop :=
  bayesOf gm b ≤ bayesOf gm a

instance (gm : ℚ) (a b : Offering) : Decidable (scoreGE gm a b) :=
  inferInstanceAs (Decidable (bayesOf gm b ≤ bayesOf gm a))

/-- The source's `df.sort_values("bayes", ascending=False)`, modelled as a
stable descending sort.  (pandas is invoked with its default sort kind
`quicksort`, which pandas does not document as stable, so the relative
order of equal-score rows in the source is unspecified; the claims proved
below about the selector do not depend on how ties are ordered.) -/
def sortedByBayes (gm : ℚ) (g : List Offering) : List Offering :=
  List.insertionSort (scoreGE gm) g

/-- Whether the backup loop skips this row: it shares the chosen primary's
subject code (never skips when there is no primary). -/
def sameCodeAsPrimary (p? : Option Offering) (o : Offering) : Bool :=
  match p? with
  | some p => o.code == p.code
  | none => false

/-- The primary-selection loop of `select_offering`: scan rows in sorted
order, extracting each row's sessions (a parse exception propagates as
`none`); the first row not conflicting with the incoming schedule becomes
primary and its sessions are appended; if the loop finishes without a
pick, no primary and the schedule is unchanged. -/
def primaryScan (cs : List Session) : List Offering → Option (Option Offering × List Session)
  | [] => some (none, cs)
  | o :: rest =>
    match extract_sessions o.timeField with
    | none => none
    | some sess =>
      if is_conflict cs sess then primaryScan cs rest
      else some (some o, cs ++ sess)

/-- The backup-selection loop of `select_offering`: scan rows in sorted
order, skipping rows sharing the primary's code, and pick the first row
whose sessions do not conflict with the (already updated) schedule. -/
def backupScan (p? : Option Offering) (cs : List Session) :
    List Offering → Option (Option Offering)
  | [] => some none
  | o :: rest =>
    if sameCodeAsPrimary p? o then backupScan p? cs rest
    else
      match extract_sessions o.timeField with
      | none => none
      | some sess =>
        if is_conflict cs sess then backupScan p? cs rest
        else some (some o)

/-- The conflict-ignoring fallback of `select_offering`: with no primary
take the top-scored row (the sorted head); with a primary take the
top-scored row whose code differs from the primary's.  The source's
unreachable empty cases map to the `head?` of an empty list. -/
def fallback (sorted : List Offering) (p? : Option Offering) : Option Offering :=
  match p? with
  | none => sorted.head?
  | some p => (sorted.filter fun o => o.code != p.code).head?

/-- The source's `select_offering`: on an empty group return no primary
and no backup; otherwise sort by descending score, run the primary scan
(mutating the caller's schedule on success), then the backup scan, and if
that found nothing use the conflict-ignoring fallback.  The result is the
pair together with the updated schedule; `none` models an uncaught
exception from `extract_sessions`. -/
def select_offering (group : List Offering) (cs : List Session) (gm : ℚ) :
    Option (Option Offering × Option Offering × List Session) :=
  if group.isEmpty then some (none, none, cs)
  else
    match primaryScan cs (sortedByBayes gm group) with
    | none => none
    | some (p?, cs') =>
      match backupScan p? cs' (sortedByBayes gm group) with
      | none => none
      | some sb =>
        some (p?, (match sb with
          | some b => some b
          | none => fallback (sortedByBayes gm group) p?), cs')

theorem primaryScan_none {cs : List Session} :
    ∀ {l : List Offering} {cs'}, primaryScan cs l = some (none, cs') →
      cs' = cs ∧ ∀ q ∈ l, ∃ sq,
        extract_sessions q.timeField = some sq ∧ is_conflict cs sq = true := by
  intro l
  induction l with
  | nil =>
    intro cs' h
    simp only [primaryScan, Option.some.injEq, Prod.mk.injEq] at h
    simp [h.2.symm]
  | cons o rest ih =>
    intro cs' h
    simp only [primaryScan] at h
    cases he : extract_sessions o.timeField with
    | none => simp [he] at h
    | some sess =>
      simp only [he] at h
      cases hc : is_conflict cs sess with
      | true =>
        rw [if_pos hc] at h
        obtain ⟨h1, h2⟩ := ih h
        refine ⟨h1, ?_⟩
        intro q hq
        rcases List.mem_cons.1 hq with rfl | hq
        · exact ⟨sess, he, hc⟩
        · exact h2 q hq
      | false =>
        rw [if_neg (by simp [hc])] at h
        simp at h

theorem primaryScan_some {cs : List Session} :
    ∀ {l : List Offering} {p cs'}, primaryScan cs l = some (some p, cs') →
      ∃ pre post sp, l = pre ++ p :: post ∧
        (∀ q ∈ pre, ∃ sq,
          extract_sessions q.timeField = some sq ∧ is_conflict cs sq = true) ∧
        extract_sessions p.timeField = some sp ∧ is_conflict cs sp = false ∧
        cs' = cs ++ sp := by
  intro l
  induction l with
  | nil => intro p cs' h; simp [primaryScan] at h
  | cons o rest ih =>
    intro p cs' h
    simp only [primaryScan] at h
    cases he : extract_sessions o.timeField with
    | none => simp [he] at h
    | some sess =>
      simp only [he] at h
      cases hc : is_conflict cs sess with
      | true =>
        rw [if_pos hc] at h
        obtain ⟨pre, post, sp, hl, hpre, hex, hnc, hcs⟩ := ih h
        refine ⟨o :: pre, post, sp, by rw [hl, List.cons_append], ?_, hex, hnc, hcs⟩
        intro q hq
        rcases List.mem_cons.1 hq with rfl | hq
        · exact ⟨sess, he, hc⟩
        · exact hpre q hq
      | false =>
        rw [if_neg (by simp [hc])] at h
        simp only [Option.some.injEq, Prod.mk.injEq] at h
        obtain ⟨h1, h2⟩ := h
        cases h1
        exact ⟨[], rest, sess, rfl, by simp, he, hc, h2.symm⟩

theorem backupScan_some_mem {p? : Option Offering} {cs : List Session} :
    ∀ {l : List Offering} {b}, backupScan p? cs l = some (some b) →
      b ∈ l ∧ (∀ p, p? = some p → b.code ≠ p.code) ∧
      ∃ sb, extract_sessions b.timeField = some sb ∧ is_conflict cs sb = false := by
  intro l
  induction l with
  | nil => intro b h; simp [backupScan] at h
  | cons o rest ih =>
    intro b h
    simp only [backupScan] at h
    cases hs : sameCodeAsPrimary p? o with
    | true =>
      rw [if_pos hs] at h
      obtain ⟨h1, h2, h3⟩ := ih h
      exact ⟨List.mem_cons_of_mem o h1, h2, h3⟩
    | false =>
      rw [if_neg (by simp [hs])] at h
      cases he : extract_sessions o.timeField with
      | none => simp [he] at h
      | some sess =>
        simp only [he] at h
        cases hc : is_conflict cs sess with
        | true =>
          rw [if_pos hc] at h
          obtain ⟨h1, h2, h3⟩ := ih h
          exact ⟨List.mem_cons_of_mem o h1, h2, h3⟩
        | false =>
          rw [if_neg (by simp [hc])] at h
          simp only [Option.some.injEq] at h
          cases h
          refine ⟨List.mem_cons_self o rest, ?_, sess, he, hc⟩
          intro p hp
          rw [hp] at hs
          simpa [sameCodeAsPrimary] using hs

theorem backupScan_none_of {p? : Option Offering} {cs : List Session} :
    ∀ {l : List Offering} {sb}, backupScan p? cs l = some sb →
      (∀ q ∈ l, sameCodeAsPrimary p? q = false →
        ∀ sq, extract_sessions q.timeField = some sq → is_conflict cs sq = true) →
      sb = none := by
  intro l
  induction l with
  | nil => intro sb h _; simpa [backupScan] using h.symm
  | cons o rest ih =>
    intro sb h hall
    simp only [backupScan] at h
    cases hs : sameCodeAsPrimary p? o with
    | true =>
      rw [if_pos hs] at h
      exact ih h fun q hq => hall q (List.mem_cons_of_mem o hq)
    | false =>
      rw [if_neg (by simp [hs])] at h
      cases he : extract_sessions o.timeField with
      | none => simp [he] at h
      | some sess =>
        simp only [he] at h
        have hc : is_conflict cs sess = true :=
          hall o (List.mem_cons_self o rest) hs sess he
        rw [if_pos hc] at h
        exact ih h fun q hq => hall q (List.mem_cons_of_mem o hq)

theorem select_offering_inv {group : List Offering} {cs : List Session} {gm : ℚ}
    {p? b? : Option Offering} {cs' : List Session}
    (h : select_offering group cs gm = some (p?, b?, cs')) :
    (group = [] ∧ p? = none ∧ b? = none ∧ cs' = cs) ∨
    (group ≠ [] ∧ ∃ sb,
      primaryScan cs (sortedByBayes gm group) = some (p?, cs') ∧
      backupScan p? cs' (sortedByBayes gm group) = some sb ∧
      b? = (match sb with
        | some b => some b
        | none => fallback (sortedByBayes gm group) p?)) := by
  by_cases hg : group.isEmpty
  · left
    rw [select_offering, if_pos hg] at h
    simp only [Option.some.injEq, Prod.mk.injEq] at h
    exact ⟨List.isEmpty_iff.1 hg, h.1.symm, h.2.1.symm, h.2.2.symm⟩
  · right
    rw [select_offering, if_neg hg] at h
    refine ⟨fun hnil => hg (by simp [hnil]), ?_⟩
    cases hp : primaryScan cs (sortedByBayes gm group) with
    | none => rw [hp] at h; cases h
    | some pr =>
      obtain ⟨q?, cs''⟩ := pr
      simp only [hp] at h
      cases hb : backupScan q? cs'' (sortedByBayes gm group) with
      | none => simp [hb] at h
      | some sb =>
        simp only [hb, Option.some.injEq, Prod.mk.injEq] at h
        obtain ⟨rfl, rfl, rfl⟩ := h
        exact ⟨sb, rfl, hb, rfl⟩

/-- C1: when `select_offering` returns normally, the chosen primary (when
one is chosen) is the first row in score-sorted order whose parsed
Sessions do not conflict with any Session of the incoming schedule (every
earlier sorted row conflicts), and on selection its Sessions are appended
to the caller's schedule; when no row qualifies the primary is `none` and
the schedule comes back unchanged. -/
theorem C1_primary_first_nonconflicting (group : List Offering) (cs : List Session)
    (gm : ℚ) (p? b? : Option Offering) (cs' : List Session)
    (h : select_offering group cs gm = some (p?, b?, cs')) :
    (∀ p, p? = some p → ∃ pre post sp,
      sortedByBayes gm group = pre ++ p :: post ∧
      (∀ q ∈ pre, ∃ sq,
        extract_sessions q.timeField = some sq ∧ is_conflict cs sq = true) ∧
      extract_sessions p.timeField = some sp ∧ is_conflict cs sp = false ∧
      cs' = cs ++ sp) ∧
    (p? = none → cs' = cs) := by
  rcases select_offering_inv h with ⟨hg, hpn, hbn, hcs⟩ | ⟨hg, sb, hp, hb, hbEq⟩
  · subst hpn
    subst hcs
    refine ⟨?_, fun _ => rfl⟩
    rintro p hpp
    cases hpp
  · constructor
    · rintro p rfl
      exact primaryScan_some hp
    · rintro rfl
      exact (primaryScan_none hp).1

/-- C5: whenever `select_offering` returns both a primary and a backup,
their subject codes differ (the backup scan skips the primary's code and
the fallback filters it out). -/
theorem C5_primary_ne_backup_code (group : List Offering) (cs : List Session) (gm : ℚ)
    (p b : Offering) (cs' : List Session)
    (h : select_offering group cs gm = some (some p, some b, cs')) :
    p.code ≠ b.code := by
  rcases select_offering_inv h with ⟨_, hpn, _, _⟩ | ⟨hg, sb, hp, hb, hbEq⟩
  · cases hpn
  · cases sb with
    | some b' =>
      simp only [Option.some.injEq] at hbEq
      subst hbEq
      obtain ⟨_, hcode, _⟩ := backupScan_some_mem hb
      exact fun hEq => (hcode p rfl) hEq.symm
    | none =>
      simp only [fallback] at hbEq
      have hmem : b ∈ (sortedByBayes gm group).filter fun o => o.code != p.code := by
        cases hl : (sortedByBayes gm group).filter fun o => o.code != p.code with
        | nil => rw [hl] at hbEq; cases hbEq
        | cons x xs =>
          rw [hl] at hbEq
          simp only [List.head?, Option.some.injEq] at hbEq
          subst hbEq
          exact List.mem_cons_self _ _
      have hbne := (List.mem_filter.1 hmem).2
      simp only [bne_iff_ne, ne_eq] at hbne
      exact fun hEq => hbne hEq.symm

/-- C4: when the candidate group holds at least two distinct subject
codes, `select_offering` always returns a backup; moreover when the
primary is `none` the backup is the top-scored row overall, and when a
primary was chosen and every other-code row conflicts with the updated
schedule, the backup is the top-scored row with a different code
(conflict ignored). -/
theorem C4_backup_always (group : List Offering) (cs : List Session) (gm : ℚ)
    (p? b? : Option Offering) (cs' : List Session)
    (h : select_offering group cs gm = some (p?, b?, cs'))
    (hcodes : ∃ a ∈ group, ∃ c ∈ group, a.code ≠ c.code) :
    b?.isSome = true ∧
    (p? = none → b? = (sortedByBayes gm group).head?) ∧
    (∀ p, p? = some p →
      (∀ q ∈ sortedByBayes gm group, q.code ≠ p.code →
        ∀ sq, extract_sessions q.timeField = some sq → is_conflict cs' sq = true) →
      b? = ((sortedByBayes gm group).filter fun o => o.code != p.code).head?) := by
  obtain ⟨a, ha, c, hc, hac⟩ := hcodes
  rcases select_offering_inv h with ⟨hg, hpn, hbn, hcs⟩ | ⟨hg, sb, hp, hb, hbEq⟩
  · rw [hg] at ha
    cases ha
  · have hperm : (sortedByBayes gm group).Perm group :=
      List.perm_insertionSort (scoreGE gm) group
    have hmem_sorted : ∀ x, x ∈ group → x ∈ sortedByBayes gm group :=
      fun x hx => hperm.mem_iff.2 hx
    refine ⟨?_, ?_, ?_⟩
    · cases sb with
      | some b => rw [hbEq]; rfl
      | none =>
        rw [hbEq]
        cases hpq : p? with
        | none =>
          simp only [fallback]
          cases hs : sortedByBayes gm group with
          | nil =>
            exact absurd (hs ▸ hmem_sorted a ha) (List.not_mem_nil a)
          | cons x xs => rfl
        | some p =>
          simp only [fallback]
          have hone : ∃ x ∈ group, x.code ≠ p.code := by
            by_cases hap : a.code = p.code
            · exact ⟨c, hc, fun hcp => hac (hap.trans hcp.symm)⟩
            · exact ⟨a, ha, hap⟩
          obtain ⟨x, hx, hxp⟩ := hone
          have hxf : x ∈ (sortedByBayes gm group).filter fun o => o.code != p.code :=
            List.mem_filter.2 ⟨hmem_sorted x hx, by simpa [bne_iff_ne] using hxp⟩
          cases hl : (sortedByBayes gm group).filter fun o => o.code != p.code with
          | nil => exact absurd (hl ▸ hxf) (List.not_mem_nil x)
          | cons y ys => rfl
    · rintro rfl
      obtain ⟨hcs, hall⟩ := primaryScan_none hp
      subst hcs
      have hsb : sb = none := by
        refine backupScan_none_of hb ?_
        intro q hq _ sq hsq
        obtain ⟨sq0, hsq0, hcf⟩ := hall q hq
        rw [hsq0] at hsq
        cases hsq
        exact hcf
      subst hsb
      rw [hbEq]
      simp only [fallback]
    · rintro p rfl hallc
      have hsb : sb = none := by
        refine backupScan_none_of hb ?_
        intro q hq hskip sq hsq
        have hqp : q.code ≠ p.code := by
          simpa [sameCodeAsPrimary, bne_iff_ne] using hskip
        exact hallc q hq hqp sq hsq
      subst hsb
      rw [hbEq]
      simp only [fallback]

/-- C10: the general-phase backup lookup of `build_schedule` re-invokes
`select_offering` on the rows sharing the chosen row's subject name but
carrying a different subject code, and keeps only the backup component;
when that sibling group is a single section whose sessions do not conflict
with the committed schedule, the sibling is consumed as the sub-call's own
primary, so the backup component — the recorded backup — is `none`. -/
theorem C10_general_backup_lookup_none (generalSorted : List Offering) (row o : Offering)
    (cs : List Session) (gm : ℚ) (so : List Session)
    (hgrp : generalSorted.filter (fun q => q.name == row.name && q.code != row.code) = [o])
    (hex : extract_sessions o.timeField = some so)
    (hnc : is_conflict cs so = false) :
    select_offering (generalSorted.filter
        (fun q => q.name == row.name && q.code != row.code)) cs gm
      = some (some o, none, cs ++ so) := by
  rw [hgrp]
  have hsort : sortedByBayes gm [o] = [o] := rfl
  rw [select_offering, if_neg (by simp), hsort]
  simp [primaryScan, hex, hnc, backupScan, sameCodeAsPrimary, fallback]

/-- One row of the recommendation table, as assembled by the source's
`append_record`: category, subject name, and code/time/instructor/rating
cells for the primary and the backup.  A missing side leaves the string
cells empty; the rating cell is `none` for the source's `pd.NA`
placeholder and `some r` for a present row whose own rating is `r`
(itself possibly absent). -/
structure RecRecord where
  gubun : String
  name : String
  pCode : String
  pTime : String
  pProf : String
  pRating : Option (Option ℚ)
  bCode : String
  bTime : String
  bProf : String
  bRating : Option (Option ℚ)
deriving DecidableEq, Repr

/-- The source's `append_record` body, producing the record appended to
`rec_records`. -/
def mkRecord (cat subj : String) (p? b? : Option Offering) : RecRecord :=
  { gubun := cat
    name := subj
    pCode := match p? with | some p => p.code | none => ""
    pTime := match p? with | some p => p.timeField | none => ""
    pProf := match p? with | some p => p.prof | none => ""
    pRating := p?.map fun p => p.rating
    bCode := match b? with | some b => b.code | none => ""
    bTime := match b? with | some b => b.timeField | none => ""
    bProf := match b? with | some b => b.prof | none => ""
    bRating := b?.map fun b => b.rating }

/-- The source's `df["강의평"].replace(0, pd.NA).dropna().mean()`: the
mean of all present, non-zero ratings of the whole catalog.  When no such
rating exists the source's mean is `NaN`; the model yields `0` there
(division by zero in `ℚ`), a corner no claim depends on. -/
def compute_global_mean (df : List Offering) : ℚ :=
  let rs := (df.filterMap fun o => o.rating).filter fun r => r != 0
  rs.sum / rs.length

/-- pandas `Series.unique`: the distinct values in order of first
appearance. -/
def uniqueFirst : List String → List String
  | [] => []
  | x :: xs => x :: uniqueFirst (xs.filter fun y => y != x)
termination_by l => l.length
decreasing_by
  simp only [List.length_cons]
  exact Nat.lt_succ_of_le (List.length_filter_le _ _)

/-- The loop body shared by the mandatory and elective phases of
`build_schedule`: run `select_offering` on this subject's group against
the accumulated schedule, append the chosen primary (if any) to the
primary list and the record to the record list. -/
def phaseStep (gm : ℚ) (cat subj : String) (group : List Offering)
    (acc : List Offering × List RecRecord × List Session) :
    Option (List Offering × List RecRecord × List Session) :=
  match select_offering group acc.2.2 gm with
  | none => none
  | some (p?, b?, cs') =>
    some (acc.1 ++ (match p? with | some p => [p] | none => []),
          acc.2.1 ++ [mkRecord cat subj p? b?], cs')

/-- The mandatory phase of `build_schedule`: for each distinct mandatory
subject name in catalog order, select among the mandatory rows carrying
that name. -/
def mandatoryLoop (df : List Offering) (gm : ℚ) :
    List String → (List Offering × List RecRecord × List Session) →
    Option (List Offering × List RecRecord × List Session)
  | [], acc => some acc
  | subj :: rest, acc =>
    match phaseStep gm "전필" subj
        (df.filter fun o => o.gubun == "전필" && o.name == subj) acc with
    | none => none
    | some acc' => mandatoryLoop df gm rest acc'

/-- The elective phase of `build_schedule`: for each user-selected subject
name in selection order, select among the elective rows carrying that
name. -/
def electiveLoop (electives : List Offering) (gm : ℚ) :
    List String → (List Offering × List RecRecord × List Session) →
    Option (List Offering × List RecRecord × List Session)
  | [], acc => some acc
  | subj :: rest, acc =>
    match phaseStep gm "전선" subj (electives.filter fun o => o.name == subj) acc with
    | none => none
    | some acc' => electiveLoop electives gm rest acc'

/-- The general phase of `build_schedule`: walk the score-sorted general
rows; stop once the target count is reached; commit each non-conflicting
row directly as a primary and look up its backup by re-running
`select_offering` on the same-name different-code rows against a copy of
the schedule (the sub-call's state changes are discarded). -/
def generalLoop (gm : ℚ) (numGeneral : Nat) (generalSorted : List Offering) :
    List Offering → Nat → (List Offering × List RecRecord × List Session) →
    Option (List Offering × List RecRecord × List Session)
  | [], _, acc => some acc
  | row :: rest, added, acc =>
    if numGeneral ≤ added then some acc
    else
      match extract_sessions row.timeField with
      | none => none
      | some sess =>
        if is_conflict acc.2.2 sess then
          generalLoop gm numGeneral generalSorted rest added acc
        else
          match select_offering
              (generalSorted.filter fun q => q.name == row.name && q.code != row.code)
              (acc.2.2 ++ sess) gm with
          | none => none
          | some (_, backup, _) =>
            generalLoop gm numGeneral generalSorted rest (added + 1)
              (acc.1 ++ [row],
               acc.2.1 ++ [mkRecord "교선" row.name (some row) backup],
               acc.2.2 ++ sess)

/-- The source's `build_schedule`: compute the global mean, run the
mandatory, elective and general phases in order over one shared schedule
accumulator, and return the primary table and the recommendation table;
`none` models an uncaught `extract_sessions` exception. -/
def build_schedule (df : List Offering) (selected_majors : List String)
    (num_general : Nat) : Option (List Offering × List RecRecord) :=
  let gm := compute_global_mean df
  match mandatoryLoop df gm
      (uniqueFirst ((df.filter fun o => o.gubun == "전필").map fun o => o.name))
      ([], [], []) with
  | none => none
  | some acc1 =>
    match electiveLoop (df.filter fun o => o.gubun == "전선") gm selected_majors acc1 with
    | none => none
    | some acc2 =>
      match generalLoop gm num_general
          (sortedByBayes gm (df.filter fun o => o.gubun == "교선"))
          (sortedByBayes gm (df.filter fun o => o.gubun == "교선")) 0 acc2 with
      | none => none
      | some acc3 => some (acc3.1, acc3.2.1)

/-- C9: `build_schedule` is deterministic — two calls with identical
catalog, identical selected elective names and identical general-education
count produce identical primary and recommendation tables.  The schedule
accumulator is created afresh inside each invocation, so no state leaks
between calls. -/
theorem C9_build_schedule_deterministic (df1 df2 : List Offering)
    (sel1 sel2 : List String) (n1 n2 : Nat)
    (h1 : df1 = df2) (h2 : sel1 = sel2) (h3 : n1 = n2) :
    build_schedule df1 sel1 n1 = build_schedule df2 sel2 n2 := by
  subst h1
  subst h2
  subst h3
  rfl

/-- Witness data: two sections of one subject; the second one starts while
the first is still running. -/
def c1A : Offering :=
  ⟨"전필", "자료구조", "CS201-1", "김", "월 [E1] 09:00~10:00", 3, none, none⟩

/-- Witness data: a section conflicting with `c1A`. -/
def c1B : Offering :=
  ⟨"전필", "자료구조", "CS201-2", "이", "월 [E1] 09:30~10:30", 3, none, none⟩

theorem C1_witness :
    (∀ p, (some c1A : Option Offering) = some p → ∃ pre post sp,
      sortedByBayes 0 [c1A, c1B] = pre ++ p :: post ∧
      (∀ q ∈ pre, ∃ sq,
        extract_sessions q.timeField = some sq ∧ is_conflict [] sq = true) ∧
      extract_sessions p.timeField = some sp ∧ is_conflict [] sp = false ∧
      [(⟨0, 540, 600⟩ : Session)] = [] ++ sp) ∧
    ((some c1A : Option Offering) = none →
      [(⟨0, 540, 600⟩ : Session)] = ([] : List Session)) :=
  C1_primary_first_nonconflicting [c1A, c1B] [] 0 (some c1A) (some c1B)
    [⟨0, 540, 600⟩] (by decide)

/-- Witness data: two same-time sections of one subject, distinct codes. -/
def c4A : Offering :=
  ⟨"전필", "알고리즘", "CS301-1", "박", "월 [E2] 09:00~10:00", 3, none, none⟩

/-- Witness data: the alternative section, conflicting with `c4A`. -/
def c4B : Offering :=
  ⟨"전필", "알고리즘", "CS301-2", "최", "월 [E2] 09:00~10:00", 3, none, none⟩

theorem C4_witness :
    ((some c4B : Option Offering).isSome = true) ∧
    ((some c4A : Option Offering) = none →
      (some c4B : Option Offering) = (sortedByBayes 0 [c4A, c4B]).head?) ∧
    (∀ p, (some c4A : Option Offering) = some p →
      (∀ q ∈ sortedByBayes 0 [c4A, c4B], q.code ≠ p.code →
        ∀ sq, extract_sessions q.timeField = some sq →
          is_conflict [(⟨0, 540, 600⟩ : Session)] sq = true) →
      (some c4B : Option Offering) =
        ((sortedByBayes 0 [c4A, c4B]).filter fun o => o.code != p.code).head?) :=
  C4_backup_always [c4A, c4B] [] 0 (some c4A) (some c4B) [⟨0, 540, 600⟩]
    (by decide) (by decide)

/-- Witness data: a section of one subject. -/
def c5A : Offering :=
  ⟨"전선", "운영체제", "CS401-1", "정", "수 [E3] 10:00~11:00", 3, none, none⟩

/-- Witness data: the alternative same-time section of that subject. -/
def c5B : Offering :=
  ⟨"전선", "운영체제", "CS401-2", "한", "수 [E3] 10:00~11:00", 3, none, none⟩

theorem C5_witness : c5A.code ≠ c5B.code :=
  C5_primary_ne_backup_code [c5A, c5B] [] 0 c5A c5B [⟨2, 600, 660⟩] (by decide)

/-- Witness data: a small two-row catalog with ratings. -/
def c9Df : List Offering :=
  [⟨"전필", "자료구조", "CS201-1", "김", "월 [E1] 09:00~10:00", 3, some 4, some 20⟩,
   ⟨"교선", "교양A", "G1-1", "문", "월 [B1] 13:00~14:00", 2, some 3, some 5⟩]

theorem C9_witness :
    build_schedule c9Df ["알고리즘"] 1 = build_schedule c9Df ["알고리즘"] 1 :=
  C9_build_schedule_deterministic c9Df c9Df ["알고리즘"] ["알고리즘"] 1 1 rfl rfl rfl

/-- Witness data: the general-phase row whose backup is looked up. -/
def c10Row : Offering :=
  ⟨"교선", "교양A", "G1-1", "문", "월 [B1] 13:00~14:00", 2, none, none⟩

/-- Witness data: the sole sibling section, not conflicting with the
committed schedule. -/
def c10Sib : Offering :=
  ⟨"교선", "교양A", "G1-2", "송", "화 [B1] 10:00~11:00", 2, none, none⟩

theorem C10_witness :
    select_offering ([c10Row, c10Sib].filter
        fun q => q.name == c10Row.name && q.code != c10Row.code) [] 0
      = some (some c10Sib, none, [] ++ [⟨1, 600, 660⟩]) :=
  C10_general_backup_lookup_none [c10Row, c10Sib] c10Row c10Sib [] 0 [⟨1, 600, 660⟩]
    (by decide) (by decide) (by decide)

end AutoClass

